import Mathlib

set_option maxRecDepth 8000

/-!
Shallow embedding of `btree.go` from the lbadd repository (package `lbadd`).

Go pointer structure is modelled with an explicit arena: every `*node` is an
index into `Btree.heap`, a `nil` pointer is `Option.none`, and pointer writes
are functional updates of the arena.  Go runtime panics (index out of range,
slice bounds out of range, nil pointer dereference, explicit `panic` calls)
are modelled as `Except.error` with a message describing the panic; the
`spew.Dump` debugging calls in the source only print and are not modelled.
Recursive descent through the arena is bounded by an explicit fuel argument
(the real recursion is unbounded pointer chasing); the fuel passed by the
public entry points is the arena size, which is enough for every acyclic
heap, and fuel exhaustion is reported as an error that never occurs on the
concrete inputs or well-formed trees considered below.

`key` is Go `int`, modelled as `Int`; `value` is Go `interface{}` (only ever
holding data the tests care about or `nil`), modelled as `Option Int` with
`none` standing for Go `nil`.
-/

namespace lbadd

/-- Entry mirrors `type entry struct { key key; value value }`. -/
structure Entry where
  key : Int
  value : Option Int
deriving Repr, DecidableEq

/-- Node mirrors `type node struct { parent *node; entries []*entry; children []*node }`,
with pointers replaced by arena indices. -/
structure Node where
  parent : Option Nat
  entries : List Entry
  children : List Nat
deriving Repr, DecidableEq

/-- Btree mirrors `type btree struct { root *node; size int; order int }`,
extended with the arena `heap` that stores every allocated node. -/
structure Btree where
  heap : List Node
  root : Option Nat
  size : Int
  order : Int
deriving Repr, DecidableEq

/-- Go: `const defaultOrder = 3`. -/
def defaultOrder : Int := 3

/-- Go: `newBtree()`. -/
def newBtree : Btree :=
  { heap := [], root := none, size := 0, order := defaultOrder }

/-- Go: `newBtreeOrder(order int)` — note: no validation of `order` at all. -/
def newBtreeOrder (order : Int) : Btree :=
  { heap := [], root := none, size := 0, order := order }

/-- Model of Go `int(math.Ceil(float64(order) / 2.0))`: the exact ceiling of
`order / 2` (`float64` is exact on every `int` the arithmetic here meets). -/
def ceilHalf (order : Int) : Int := -((-order) / 2)

/-- Go: `func (n *node) isLeaf() bool { return len(n.children) == 0 }`. -/
def Node.isLeaf (n : Node) : Bool := n.children.length == 0

/-- Go: `func (n *node) isFull(order int) bool { return len(n.entries) >= order }`. -/
def Node.isFull (n : Node) (order : Int) : Bool := decide (order ≤ (n.entries.length : Int))

/-- Go: `func (n *node) canSteal(order int) bool` — `len(n.entries) > ceil(order/2)`. -/
def Node.canSteal (n : Node) (order : Int) : Bool := decide (ceilHalf order < (n.entries.length : Int))

/-- Go: `func (n *node) isUnderflowed(order int) bool` — `len(n.entries) < ceil(order/2)`. -/
def Node.isUnderflowed (n : Node) (order : Int) : Bool := decide ((n.entries.length : Int) < ceilHalf order)

/-- Go: `func (n *node) canSplit(order int) bool` — `len(n.entries) >= 2*ceil(order/2)`.
Only referenced from commented-out code in the source; kept for completeness. -/
def Node.canSplit (n : Node) (order : Int) : Bool := decide (2 * ceilHalf order ≤ (n.entries.length : Int))

/-- Go slice indexing `l[i]` with an `int` index: `none` models the
"index out of range" panic (negative or too large index). -/
def listGetI {α : Type} (l : List α) (i : Int) : Option α :=
  if i < 0 then none else l[i.toNat]?

/-- Loop body of `btree.search` (lines 273–295): binary search returning
`(low, false)` when the key is absent and `(mid + 1, true)` — note the `+ 1`,
exactly as in the source — when `entries[mid].key == k`.  The loop is driven
by a fuel argument; `entries.length + 1` iterations always suffice because
the interval `[low, high]` shrinks strictly each round. -/
def searchGo (entries : List Entry) (k : Int) : Nat → Int → Int → Int × Bool
  | 0, low, _ => (low, false)
  | fuel + 1, low, high =>
    if low ≤ high then
      let mid := (high + low) / 2
      match entries[mid.toNat]? with
      | none => (low, false)
      | some e =>
        if k > e.key then searchGo entries k fuel (mid + 1) high
        else if k < e.key then searchGo entries k fuel low (mid - 1)
        else (mid + 1, true)
    else (low, false)

/-- Go: `func (b *btree) search(entries []*entry, k key) (index int, exists bool)`
with `low = 0`, `high = len(entries) - 1`. -/
def search (entries : List Entry) (k : Int) : Int × Bool :=
  searchGo entries k (entries.length + 1) 0 ((entries.length : Int) - 1)

/-- Go: `func (n *node) split() *node` (lines 329–350), on the arena.  Returns
the updated heap and the index of the node the Go function returns.  Faithful
to the source: the median entry is kept inside the right child, the promoted
copy `{n.entries[mid].key, nil}` loses its value, the returned node's children
are `append(n.children, left, right)` (the old children are not partitioned),
and `left`/`right` keep the old node `n` — not the returned node — as parent. -/
def splitNode (h : List Node) (id : Nat) : List Node × Nat :=
  match h[id]? with
  | none => (h, id)
  | some n =>
    if n.entries.length == 0 then (h, id)
    else
      let mid := n.entries.length / 2
      match n.entries[mid]? with
      | none => (h, id)
      | some med =>
        let left : Node := { parent := some id, entries := n.entries.take mid, children := [] }
        let right : Node := { parent := some id, entries := n.entries.drop mid, children := [] }
        let newN : Node :=
          { parent := n.parent
            entries := [{ key := med.key, value := none }]
            children := n.children ++ [h.length, h.length + 1] }
        (h ++ [left, right, newN], h.length + 2)

/-- Go: `func (b *btree) getNode(node *node, k key) (result *entry, exists bool)`
(lines 98–109).  `result` is `Option Entry` (`none` = Go `nil`).  Note the
source guard is `i > len(node.children)` — `i == len(node.children)` falls
through to the `node.children[i]` access, which is out of range. -/
def getNode : Nat → Btree → Nat → Int → Except String (Option Entry × Bool)
  | 0, _, _, _ => .error "out of fuel"
  | fuel + 1, b, id, k =>
    match b.heap[id]? with
    | none => .error "invalid node"
    | some n =>
      let p := search n.entries k
      if p.2 then
        match listGetI n.entries p.1 with
        | none => .error "index out of range"
        | some e => .ok (some e, true)
      else if (n.children.length : Int) < p.1 then .ok (none, false)
      else
        match listGetI n.children p.1 with
        | none => .error "index out of range"
        | some cid => getNode fuel b cid k

/-- Go: `func (b *btree) get(k key) (result *entry, exists bool)` (lines 90–96). -/
def get (b : Btree) (k : Int) : Except String (Option Entry × Bool) :=
  match b.root with
  | none => .ok (none, false)
  | some r =>
    match b.heap[r]? with
    | none => .error "invalid node"
    | some n =>
      if n.entries.length == 0 then .ok (none, false)
      else getNode b.heap.length b r k

/-- Go: `func (b *btree) insertNode(node *node, entry *entry) (inserted bool)`
(lines 128–163).  After `b.root = node.split()` the code keeps using the old
`node` pointer; since `split` only allocates and never mutates existing
nodes, the record at `id` is unchanged and we keep using `n`. -/
def insertNode : Nat → Btree → Nat → Entry → Except String (Bool × Btree)
  | 0, _, _, _ => .error "out of fuel"
  | fuel + 1, b, id, e =>
    match b.heap[id]? with
    | none => .error "invalid node"
    | some n =>
      let b1 :=
        if b.root == some id && n.isFull b.order then
          let s := splitNode b.heap id
          { b with heap := s.1, root := some s.2 }
        else b
      let p := search n.entries e.key
      if p.2 then
        -- node.entries[idx] = entry
        if p.1 < 0 ∨ (n.entries.length : Int) ≤ p.1 then .error "index out of range"
        else
          .ok (false, { b1 with heap := b1.heap.set id { n with entries := n.entries.set p.1.toNat e } })
      else if n.isLeaf then
        -- append nil, shift with copy, write entry at idx: inserts e at idx
        if p.1 < 0 ∨ (n.entries.length : Int) < p.1 then .error "index out of range"
        else
          .ok (true, { b1 with
                heap := b1.heap.set id
                  { n with entries := n.entries.take p.1.toNat ++ e :: n.entries.drop p.1.toNat }
                size := b1.size + 1 })
      else
        match listGetI n.children p.1 with
        | none => .error "index out of range"
        | some cid =>
          match b1.heap[cid]? with
          | none => .error "invalid node"
          | some cn =>
            if cn.isFull b1.order then
              let s := splitNode b1.heap cid
              let b2 := { b1 with heap := s.1.set id { n with children := n.children.set p.1.toNat s.2 } }
              insertNode fuel b2 s.2 e
            else insertNode fuel b1 cid e

/-- Go: `func (b *btree) insert(k key, v value)` (lines 113–125). -/
def insert (b : Btree) (k : Int) (v : Option Int) : Except String Btree :=
  match b.root with
  | none =>
    .ok { b with
          heap := b.heap ++ [{ parent := none, entries := [{ key := k, value := v }], children := [] }]
          root := some b.heap.length
          size := b.size + 1 }
  | some r => (insertNode (b.heap.length + 1) b r { key := k, value := v }).map (·.2)

/-- Go: `func (b *btree) removeNode(node *node, k key) (removed bool)`
(lines 178–242).  The `spew.Dump` calls only print.  The "merge" branch is
commented out in the source, so when neither steal applies the function
simply returns `true` with the underflow left in place.  A nil `node.parent`
in the underflow branch is a nil pointer dereference. -/
def removeNode : Nat → Btree → Nat → Int → Except String (Bool × Btree)
  | 0, _, _, _ => .error "out of fuel"
  | fuel + 1, b, id, k =>
    match b.heap[id]? with
    | none => .error "invalid node"
    | some n =>
      let p := search n.entries k
      if !n.isLeaf then
        match listGetI n.children p.1 with
        | none => .error "index out of range"
        | some cid => removeNode fuel b cid k
      else if !p.2 then .ok (false, b)
      else
        -- node.entries = append(node.entries[:idx], node.entries[idx+1:]...)
        if p.1 < 0 ∨ (n.entries.length : Int) < p.1 + 1 then .error "slice bounds out of range"
        else
          let n' := { n with entries := n.entries.take p.1.toNat ++ n.entries.drop (p.1.toNat + 1) }
          let b1 := { b with heap := b.heap.set id n', size := b.size - 1 }
          if n'.isUnderflowed b.order then
            match n.parent with
            | none => .error "nil pointer dereference"
            | some pid =>
              match b1.heap[pid]? with
              | none => .error "invalid node"
              | some par =>
                let q := search par.entries k
                match listGetI par.children q.1 with
                | none => .error "index out of range"
                | some lId =>
                  match b1.heap[lId]? with
                  | none => .error "invalid node"
                  | some lNode =>
                    if lNode.canSteal b.order then .error "panic: can steal from left sibling"
                    else
                      match listGetI par.children (q.1 + 1) with
                      | none => .error "index out of range"
                      | some rId =>
                        match b1.heap[rId]? with
                        | none => .error "invalid node"
                        | some rLeaf =>
                          if rLeaf.canSteal b.order then
                            match rLeaf.entries with
                            | [] => .error "index out of range"
                            | re :: _ =>
                              -- node.entries = append(node.entries, rLeaf.entries[0])
                              let b2 := { b1 with
                                heap := b1.heap.set id { n' with entries := n'.entries ++ [re] } }
                              -- rLeaf.entries = rLeaf.entries[1:]
                              match b2.heap[rId]? with
                              | none => .error "invalid node"
                              | some rNode2 =>
                                .ok (true, { b2 with
                                  heap := b2.heap.set rId { rNode2 with entries := rNode2.entries.drop 1 } })
                          else .ok (true, b1)
          else .ok (true, b1)

/-- Go: `func (b *btree) remove(k key) (removed bool)` (lines 168–174). -/
def remove (b : Btree) (k : Int) : Except String (Bool × Btree) :=
  match b.root with
  | none => .ok (false, b)
  | some r => removeNode b.heap.length b r k

/-- Go: `func (b *btree) getAll(limit int) []*entry` (lines 245–251):
returns the empty slice when `size == 0 || limit == 0`, otherwise
`panic("unimplemented")`. -/
def getAll (b : Btree) (limit : Int) : Except String (List Entry) :=
  if b.size == 0 || limit == 0 then .ok [] else .error "unimplemented"

/-- Go: `func (b *btree) getAbove(k key, limit int) []*entry` — `panic("unimplemented")`. -/
def getAbove (_b : Btree) (_k : Int) (_limit : Int) : Except String (List Entry) :=
  .error "unimplemented"

/-- Go: `func (b *btree) getBelow(k key, limit int) []*entry` — `panic("unimplemented")`. -/
def getBelow (_b : Btree) (_k : Int) (_limit : Int) : Except String (List Entry) :=
  .error "unimplemented"

/-- Go: `func (b *btree) getBetween(low, high key, limit int) []*entry` — `panic("unimplemented")`. -/
def getBetween (_b : Btree) (_low _high : Int) (_limit : Int) : Except String (List Entry) :=
  .error "unimplemented"

/-- Structural well-formedness of the subtree of the arena `h` rooted at `id`,
checked to depth `fuel`: the node exists and every internal node has exactly
one more child than it has entries (the B-tree child-count invariant from the
source's own header comment, "every node must have k+1 references"). -/
def wfNode (h : List Node) : Nat → Nat → Bool
  | 0, _ => false
  | fuel + 1, id =>
    match h[id]? with
    | none => false
    | some n =>
      (n.children.length == 0 || n.children.length == n.entries.length + 1) &&
        n.children.all (wfNode h fuel)

/-- Every key stored in the subtree of arena `h` rooted at `id`, to depth `fuel`. -/
def keysUnder (h : List Node) : Nat → Nat → List Int
  | 0, _ => []
  | fuel + 1, id =>
    match h[id]? with
    | none => []
    | some n => n.entries.map (·.key) ++ (n.children.map (keysUnder h fuel)).flatten

/-- Well-formedness of a whole tree: an empty root, or a well-formed subtree. -/
def treeWF (b : Btree) : Bool :=
  match b.root with
  | none => true
  | some r => wfNode b.heap b.heap.length r

/-- All keys stored in a tree. -/
def treeKeys (b : Btree) : List Int :=
  match b.root with
  | none => []
  | some r => keysUnder b.heap b.heap.length r

/-- Soundness of the binary-search loop: whenever it reports `exists = true`
it really compared `k` equal to some stored entry's key. -/
theorem searchGo_sound (entries : List Entry) (k : Int) :
    ∀ (fuel : Nat) (low high i : Int),
      searchGo entries k fuel low high = (i, true) → k ∈ entries.map (·.key) := by
  intro fuel
  induction fuel with
  | zero =>
    intro low high i h
    simp [searchGo] at h
  | succ fuel ih =>
    intro low high i h
    simp only [searchGo] at h
    split at h
    · split at h
      · simp at h
      · rename_i e he
        split at h
        · exact ih _ _ _ h
        · split at h
          · exact ih _ _ _ h
          · rename_i h1 h2
            have hkey : k = e.key := by omega
            obtain ⟨hlt, rfl⟩ := List.getElem?_eq_some.mp he
            exact hkey ▸ List.mem_map_of_mem (·.key) (List.getElem_mem hlt)
    · simp at h

/-- Bounds on the index returned by the binary-search loop, for any bounds
that start inside the slice. -/
theorem searchGo_bounds (entries : List Entry) (k : Int) :
    ∀ (fuel : Nat) (low high i : Int) (ex : Bool),
      0 ≤ low → low ≤ (entries.length : Int) → high < (entries.length : Int) →
      searchGo entries k fuel low high = (i, ex) →
      0 ≤ i ∧ i ≤ (entries.length : Int) := by
  intro fuel
  induction fuel with
  | zero =>
    intro low high i ex h0 h1 h2 h
    simp only [searchGo] at h
    simp only [Prod.mk.injEq] at h
    omega
  | succ fuel ih =>
    intro low high i ex h0 h1 h2 h
    simp only [searchGo] at h
    split at h
    · rename_i hlh
      split at h
      · simp only [Prod.mk.injEq] at h
        omega
      · rename_i e he
        split at h
        · exact ih _ _ _ _ (by omega) (by omega) h2 h
        · split at h
          · exact ih _ _ _ _ h0 h1 (by omega) h
          · simp only [Prod.mk.injEq] at h
            omega
    · simp only [Prod.mk.injEq] at h
      omega

/-- Soundness of `btree.search`: `exists = true` implies the key is stored. -/
theorem search_sound (entries : List Entry) (k : Int) (i : Int)
    (h : search entries k = (i, true)) : k ∈ entries.map (·.key) :=
  searchGo_sound entries k _ _ _ _ h

/-- The index reported by `btree.search` lies in `[0, len(entries)]`. -/
theorem search_bounds (entries : List Entry) (k : Int) (i : Int) (ex : Bool)
    (h : search entries k = (i, ex)) : 0 ≤ i ∧ i ≤ (entries.length : Int) :=
  searchGo_bounds entries k _ _ _ _ _ (by omega) (by omega) (by omega) h

/-- Removing a key that is nowhere in a well-formed subtree descends to a
leaf, finds `exists = false` there, and returns `false` without touching the
tree: the deletion/underflow code is reached only when the key was found in
a leaf. -/
theorem removeNode_absent (k : Int) :
    ∀ (fuel : Nat) (b : Btree) (id : Nat),
      wfNode b.heap fuel id = true →
      k ∉ keysUnder b.heap fuel id →
      removeNode fuel b id k = .ok (false, b) := by
  intro fuel
  induction fuel with
  | zero =>
    intro b id hwf hk
    simp [wfNode] at hwf
  | succ fuel ih =>
    intro b id hwf hk
    match hn : b.heap[id]? with
    | none =>
      rw [wfNode, hn] at hwf
      simp at hwf
    | some n =>
      rw [wfNode, hn] at hwf
      rw [keysUnder, hn] at hk
      rw [Bool.and_eq_true] at hwf
      obtain ⟨hcnt, hall⟩ := hwf
      rw [List.mem_append] at hk
      push_neg at hk
      obtain ⟨hk1, hk2⟩ := hk
      rcases hs : search n.entries k with ⟨i, ex⟩
      have hex : ex = false := by
        cases ex with
        | false => rfl
        | true => exact absurd (search_sound n.entries k i hs) hk1
      subst hex
      have hb := search_bounds n.entries k i false hs
      cases hleaf : n.isLeaf with
      | true =>
        simp [removeNode, hn, hs, hleaf]
      | false =>
        have hne : n.children.length ≠ 0 := by
          intro h0
          rw [Node.isLeaf, h0] at hleaf
          simp at hleaf
        have hlen : n.children.length = n.entries.length + 1 := by
          have hd : n.children.length = 0 ∨ n.children.length = n.entries.length + 1 := by
            simpa using hcnt
          rcases hd with h0 | h1
          · exact absurd h0 hne
          · exact h1
        have hlt : i.toNat < n.children.length := by omega
        have hgl : listGetI n.children i = some n.children[i.toNat] := by
          unfold listGetI
          rw [if_neg (by omega)]
          exact List.getElem?_eq_getElem hlt
        have hmem : n.children[i.toNat] ∈ n.children := List.getElem_mem hlt
        have hwfc : wfNode b.heap fuel n.children[i.toNat] = true :=
          List.all_eq_true.mp hall _ hmem
        have hkc : k ∉ keysUnder b.heap fuel n.children[i.toNat] := by
          intro hin
          exact hk2 (List.mem_flatten.mpr
            ⟨keysUnder b.heap fuel n.children[i.toNat],
             List.mem_map_of_mem (keysUnder b.heap fuel) hmem, hin⟩)
        have := ih b n.children[i.toNat] hwfc hkc
        simp [removeNode, hn, hs, hleaf, hgl, this]

/-- A well-formed order-3 tree whose key 2 is stored only in the internal
root: root `[2]` with leaf children `[1]` and `[3]`. -/
def internalKeyTree : Btree :=
  { heap := [ { parent := some 2, entries := [⟨1, some 1⟩], children := [] },
              { parent := some 2, entries := [⟨3, some 3⟩], children := [] },
              { parent := none, entries := [⟨2, some 2⟩], children := [0, 1] } ],
    root := some 2, size := 3, order := 3 }

/-- A well-formed order-3 tree used as a concrete witness: root `[20]` with
leaf children `[10]` and `[30]`. -/
def witnessTree : Btree :=
  { heap := [ { parent := some 2, entries := [⟨10, some 100⟩], children := [] },
              { parent := some 2, entries := [⟨30, some 300⟩], children := [] },
              { parent := none, entries := [⟨20, some 200⟩], children := [0, 1] } ],
    root := some 2, size := 3, order := 3 }

/-- An order-3 tree holding the single entry `(1, some 1)`. -/
def oneEntryTree : Btree :=
  { heap := [{ parent := none, entries := [⟨1, some 1⟩], children := [] }],
    root := some 0, size := 1, order := 3 }

/-- C1: the round-trip claim fails on the code.  `search` returns `mid + 1`
on a hit, and `getNode` then reads `entries[i]` at that shifted index, so
already the smallest round trip — insert key 1 into an empty tree, then
`get(1)` — indexes a one-element entry slice at position 1 and dies with an
index-out-of-range panic instead of returning the entry `(1, some 0)` with
`exists = true`. -/
theorem C1_get_after_insert_panics :
    (do
      let b ← insert newBtree 1 (some 0)
      get b 1) = Except.error "index out of range" := by rfl

/-- C2: get is not total on missing keys.  For a missing key smaller than
every key of a leaf, `search` returns index 0, the guard `i > len(children)`
(which should be `>=`) does not fire on a childless leaf, and
`node.children[0]` is an out-of-range access: after inserting key 1 into an
empty tree, `get(0)` panics instead of returning `exists = false`. -/
theorem C2_get_missing_key_panics :
    (do
      let b ← insert newBtree 1 (some 0)
      get b 0) = Except.error "index out of range" := by rfl

/-- C3: upsert fails on the code.  On a hit `search` returns `mid + 1`, and
`insertNode` writes `node.entries[idx] = entry` at that shifted index, so
re-inserting the key of a one-entry root writes at position 1 of a
one-element slice: an index-out-of-range panic instead of an in-place value
replacement. -/
theorem C3_upsert_panics :
    (do
      let b ← insert newBtree 1 (some 10)
      insert b 1 (some 20)) = Except.error "index out of range" := by rfl

/-- C4: split does not behave as claimed.  Splitting a full leaf
`[1, 2, 3]` (left conjunct) keeps the median entry `(2, some 2)` inside the
right child, promotes a copy `(2, none)` whose value is dropped, and returns
a fresh node instead of inserting the median into a parent; splitting a full
internal node (right conjunct) hands the two new children no children at all
while the returned node keeps every pre-existing child plus the two new
ones, so the children are never partitioned around the median. -/
theorem C4_split_defective :
    splitNode [{ parent := none, entries := [⟨1, some 1⟩, ⟨2, some 2⟩, ⟨3, some 3⟩],
                 children := [] }] 0
      = ([ { parent := none, entries := [⟨1, some 1⟩, ⟨2, some 2⟩, ⟨3, some 3⟩], children := [] },
           { parent := some 0, entries := [⟨1, some 1⟩], children := [] },
           { parent := some 0, entries := [⟨2, some 2⟩, ⟨3, some 3⟩], children := [] },
           { parent := none, entries := [⟨2, none⟩], children := [1, 2] } ], 3) ∧
    splitNode [ { parent := some 4, entries := [⟨5, some 5⟩], children := [] },
                { parent := some 4, entries := [⟨15, some 15⟩], children := [] },
                { parent := some 4, entries := [⟨25, some 25⟩], children := [] },
                { parent := some 4, entries := [⟨35, some 35⟩], children := [] },
                { parent := none, entries := [⟨10, some 10⟩, ⟨20, some 20⟩, ⟨30, some 30⟩],
                  children := [0, 1, 2, 3] } ] 4
      = ([ { parent := some 4, entries := [⟨5, some 5⟩], children := [] },
           { parent := some 4, entries := [⟨15, some 15⟩], children := [] },
           { parent := some 4, entries := [⟨25, some 25⟩], children := [] },
           { parent := some 4, entries := [⟨35, some 35⟩], children := [] },
           { parent := none, entries := [⟨10, some 10⟩, ⟨20, some 20⟩, ⟨30, some 30⟩],
             children := [0, 1, 2, 3] },
           { parent := some 4, entries := [⟨10, some 10⟩], children := [] },
           { parent := some 4, entries := [⟨20, some 20⟩, ⟨30, some 30⟩], children := [] },
           { parent := none, entries := [⟨20, none⟩], children := [0, 1, 2, 3, 5, 6] } ], 7) :=
  ⟨by rfl, by rfl⟩

/-- C5 counterexample: with order 3, the three public inserts 1, 2, 3 leave
the tree a single root leaf holding 3 entries.  During the third insert the
root held 2 = order − 1 entries and was not split (the heap still contains
exactly one node afterwards), and the resulting node holds
3 > order − 1 entries — both halves of the claim fail. -/
theorem C5_counterexample :
    (do
      let b1 ← insert newBtree 1 (some 1)
      let b2 ← insert b1 2 (some 2)
      insert b2 3 (some 3))
      = Except.ok { heap := [{ parent := none,
                               entries := [⟨1, some 1⟩, ⟨2, some 2⟩, ⟨3, some 3⟩],
                               children := [] }],
                    root := some 0, size := 3, order := 3 } ∧
    (3 : Int) > defaultOrder - 1 :=
  ⟨by rfl, by decide⟩

/-- C5 amended: a node is split during insert descent exactly when its entry
count is at least `order` (`isFull` is `len(entries) >= order`), so a node
may hold up to `order` entries between operations.  Concretely, with
order 3: after inserting 1 and 2 the root holds 2 = order − 1 entries and
the next insert performs no split, leaving a single leaf with 3 entries;
only the insert after that finds the root full at 3 = order entries and
splits it, producing a new internal root. -/
theorem C5_amended_split_at_order :
    (do
      let b1 ← insert newBtree 1 (some 1)
      insert b1 2 (some 2))
      = Except.ok { heap := [{ parent := none,
                               entries := [⟨1, some 1⟩, ⟨2, some 2⟩],
                               children := [] }],
                    root := some 0, size := 2, order := 3 } ∧
    (do
      let b1 ← insert newBtree 1 (some 1)
      let b2 ← insert b1 2 (some 2)
      let b3 ← insert b2 3 (some 3)
      insert b3 4 (some 4))
      = Except.ok { heap := [ { parent := none,
                                entries := [⟨1, some 1⟩, ⟨2, some 2⟩, ⟨3, some 3⟩, ⟨4, some 4⟩],
                                children := [] },
                              { parent := some 0, entries := [⟨1, some 1⟩], children := [] },
                              { parent := some 0, entries := [⟨2, some 2⟩, ⟨3, some 3⟩],
                                children := [] },
                              { parent := none, entries := [⟨2, none⟩], children := [1, 2] } ],
                    root := some 3, size := 4, order := 3 } :=
  ⟨by rfl, by rfl⟩

/-- C6: internal-node deletion is not implemented.  On the well-formed
order-3 tree whose internal root stores key 2 (with leaf children `[1]` and
`[3]`), `removeNode` ignores the hit in the internal node — it unconditionally
descends into the child at the returned index, where the key is absent — so
`remove(2)` returns `false` and changes nothing, instead of returning `true`
after an in-order-predecessor swap. -/
theorem C6_internal_key_not_removed :
    treeWF internalKeyTree = true ∧
    (2 : Int) ∈ treeKeys internalKeyTree ∧
    remove internalKeyTree 2 = Except.ok (false, internalKeyTree) :=
  ⟨by decide, by decide, by rfl⟩

/-- C7: rebalancing after a leaf deletion does not behave as claimed.
Deleting key 1 from the two-entry root leaf built by inserting 1 then 2
(order 3) first removes the wrong entry (index `mid + 1`), leaves the root
with 1 < ceil(3/2) entries, and — because the root is not exempted from the
underflow branch — dereferences the root's nil parent: a panic, instead of
rebalancing stopping at the root. -/
theorem C7_root_underflow_nil_parent :
    (do
      let b1 ← insert newBtree 1 (some 1)
      let b2 ← insert b1 2 (some 2)
      remove b2 1) = Except.error "nil pointer dereference" := by rfl

/-- C8: removal of an absent key is a no-op.  For every tree whose node
arena is well-formed (every internal node has one more child than entries)
and every key not stored anywhere in it, `remove` returns `false` and the
whole tree state — size, entries, structure — is returned unchanged. -/
theorem C8_remove_absent_is_noop (b : Btree) (k : Int)
    (hwf : treeWF b = true) (hk : k ∉ treeKeys b) :
    remove b k = Except.ok (false, b) := by
  rw [treeWF] at hwf
  rw [treeKeys] at hk
  rw [remove]
  cases hr : b.root with
  | none => rfl
  | some r =>
    rw [hr] at hwf hk
    exact removeNode_absent k b.heap.length b r hwf hk

/-- C8 witness: removing the absent key 7 from a concrete well-formed
three-node tree returns `false` and the identical tree. -/
theorem C8_remove_absent_is_noop_witness :
    treeWF witnessTree = true ∧ (7 : Int) ∉ treeKeys witnessTree ∧
    remove witnessTree 7 = Except.ok (false, witnessTree) :=
  ⟨by decide, by decide, C8_remove_absent_is_noop witnessTree 7 (by decide) (by decide)⟩

/-- C9: the range-scan contract does not hold on the code.  On a tree with
one entry, `getAll` with a positive limit panics `unimplemented` (its only
implemented behavior is the empty result when size or limit is 0, last
conjunct), and `getAbove`, `getBelow`, `getBetween` panic unconditionally —
even with a limit of 0, which the claim says must yield an empty result
immediately. -/
theorem C9_range_scans_unimplemented :
    getAll oneEntryTree 10 = Except.error "unimplemented" ∧
    getAbove oneEntryTree 0 0 = Except.error "unimplemented" ∧
    getBelow oneEntryTree 5 0 = Except.error "unimplemented" ∧
    getBetween oneEntryTree 0 10 0 = Except.error "unimplemented" ∧
    getAll oneEntryTree 0 = Except.ok [] :=
  ⟨by rfl, by rfl, by rfl, by rfl, by rfl⟩

/-- C10: construction performs no order validation.  For every integer
`order` — including values below 3 — `newBtreeOrder` returns exactly a tree
with a nil root, size 0 and that order, and the unvalidated order flows
straight into the occupancy arithmetic: with the degenerate order 1, the
second insert already finds the one-entry root full (`1 >= order`) and
splits it. -/
theorem C10_no_order_validation :
    (∀ order : Int,
      newBtreeOrder order = { heap := [], root := none, size := 0, order := order }) ∧
    (do
      let b1 ← insert (newBtreeOrder 1) 1 (some 1)
      insert b1 2 (some 2))
      = Except.ok { heap := [ { parent := none,
                                entries := [⟨1, some 1⟩, ⟨2, some 2⟩], children := [] },
                              { parent := some 0, entries := [], children := [] },
                              { parent := some 0, entries := [⟨1, some 1⟩], children := [] },
                              { parent := none, entries := [⟨1, none⟩], children := [1, 2] } ],
                    root := some 3, size := 2, order := 1 } :=
  ⟨fun _ => rfl, by rfl⟩

end lbadd
